import Mathlib

/-!
Shallow embedding of the computational core of the BrickWaller repository
(src/three/BrickWall.ts and src/types/bricks.ts), over exact rational
arithmetic.  Machine floating point is modelled by the rationals; the
JavaScript operations used by the code (floor, round, comparisons, min and
max, list push and sort) are translated operation by operation.
-/

namespace BrickWaller

/-- Vector with three rational coordinates, modelling THREE.Vector3 as used by
BrickWall (only finite values arise in the pipeline). -/
structure Vec3 where
  x : ℚ
  y : ℚ
  z : ℚ
deriving DecidableEq

/-- Editor point, modelling CurvePoint from src/types/curve.ts: a pair of
normalized coordinates. -/
structure CurvePoint where
  x : ℚ
  y : ℚ
deriving DecidableEq

/-- Brick parameter bundle, modelling the BrickParameters interface
(src/types/bricks.ts, the version with a falloff field).  The interface has
fields brickLength, brickWidth, brickHeight, gap, falloff, rows and no
direction flag for the falloff. -/
structure BrickParameters where
  brickLength : ℚ
  brickWidth : ℚ
  brickHeight : ℚ
  gap : ℚ
  falloff : ℚ
  rows : ℕ
deriving DecidableEq

/-- Candidate brick, modelling the BrickPlacement interface of BrickWall.ts:
an arc-length distance together with a row index. -/
structure BrickPlacement where
  distance : ℚ
  row : ℕ
deriving DecidableEq

/-- Interface of THREE.CatmullRomCurve3 as consumed by BrickWall: the total
arc length and the arc-length parameterized point lookup.  The concrete
three.js implementation is embedded separately as curveOf. -/
structure Curve where
  getLength : ℚ
  getPointAt : ℚ → Vec3

/-- JavaScript Math.round on finite numbers: round half toward positive
infinity, equal to the floor of x + 1/2. -/
def jsRound (q : ℚ) : ℤ := ⌊q + 1 / 2⌋

/-- Row placement engine, from BrickWall.computePlacements (BrickWall.ts
lines 183 to 209): per row, a stagger offset of half a brick on odd rows, a
usable length floored at one brick, a greedy fixed pitch tiling, skipping
any center past the end of the curve.  A non-finite total length cannot
arise over the rationals, so the Number.isFinite guard of line 188 is
represented by the sign test alone. -/
def computePlacements (curve : Curve) (params : BrickParameters) :
    List BrickPlacement :=
  let totalLength := curve.getLength
  if totalLength ≤ 0 then []
  else
    (List.range params.rows).flatMap fun (row : ℕ) =>
      let rowOffset := if row % 2 = 1 then params.brickLength / 2 else 0
      let usableLength := max (totalLength - rowOffset) params.brickLength
      let bricksInRow := (max 1 ⌊usableLength / params.brickLength⌋).toNat
      (List.range bricksInRow).filterMap fun (i : ℕ) =>
        let centerDistance := rowOffset + ((i : ℚ) + 1 / 2) * params.brickLength
        if totalLength < centerDistance then none
        else some ⟨centerDistance, row⟩

/-- Stable ascending sort by distance, modelling
rowPlacements.sort((a, b) => a.distance - b.distance) of BrickWall.ts line
259 (Array.prototype.sort is stable). -/
def sortByDistance (l : List BrickPlacement) : List BrickPlacement :=
  List.insertionSort (fun a b => a.distance ≤ b.distance) l

/-- Row keys in first-occurrence order, modelling the iteration order of the
JavaScript Map built on BrickWall.ts lines 250 to 255 (Map preserves key
insertion order). -/
def rowKeys (ps : List BrickPlacement) : List ℕ :=
  ps.foldl (fun ks q => if q.row ∈ ks then ks else ks ++ [q.row]) []

/-- First index attaining the minimal absolute gap to the anchor distance,
modelling the forEach loop with a strict comparison on BrickWall.ts lines
274 to 282 (bestDist starts at positive infinity, encoded by none). -/
def closestIdx (rp : List BrickPlacement) (anchorDistance : ℚ) : ℕ :=
  (rp.foldl
    (fun (acc : ℕ × Option ℚ × ℕ) q =>
      let d := |q.distance - anchorDistance|
      match acc.2.1 with
      | none => (acc.2.2, some d, acc.2.2 + 1)
      | some best =>
          if d < best then (acc.2.2, some d, acc.2.2 + 1)
          else (acc.1, some best, acc.2.2 + 1))
    (0, none, 0)).1

/-- Nearest-sample parameter of the anchor on the curve, modelling the 256
step scan of BrickWall.ts lines 233 to 247: 257 samples of getPointAt,
planar squared distance, strict comparison keeps the first minimizer
(bestDistSq starts at positive infinity, encoded by none). -/
def bestAnchorU (curve : Curve) (ax az : ℚ) : ℚ :=
  ((List.range 257).foldl
    (fun (acc : ℚ × Option ℚ) (i : ℕ) =>
      let u : ℚ := (i : ℚ) / 256
      let pt := curve.getPointAt u
      let distSq := (pt.x - ax) * (pt.x - ax) + (pt.z - az) * (pt.z - az)
      match acc.2 with
      | none => (u, some distSq)
      | some best => if distSq < best then (u, some distSq) else acc)
    (0, none)).1

/-- Body of the per-row loop of BrickWall.applyFalloff (BrickWall.ts lines
258 to 290), acting on one row already sorted by distance: row 0 is kept
whole, near-one keep fractions keep the row whole, otherwise a contiguous
window of bricksToKeep placements centered on the placement closest to the
anchor distance survives. -/
def processRow (clampedFalloff : ℚ) (rowsCount : ℕ) (anchorDistance : ℚ)
    (row : ℕ) (rowPlacements : List BrickPlacement) : List BrickPlacement :=
  if row = 0 then rowPlacements
  else
    let rowFactor : ℚ :=
      if 1 < rowsCount then (row : ℚ) / ((rowsCount : ℚ) - 1) else 0
    let keepFraction := 1 - clampedFalloff * rowFactor
    if 999 / 1000 ≤ keepFraction then rowPlacements
    else
      let totalBricks := rowPlacements.length
      let bricksToKeep :=
        min totalBricks (max 1 (jsRound ((totalBricks : ℚ) * keepFraction))).toNat
      let ci := closestIdx rowPlacements anchorDistance
      let start : ℤ :=
        max 0 (min ((ci : ℤ) - (((bricksToKeep - 1) / 2 : ℕ) : ℤ))
          ((totalBricks : ℤ) - (bricksToKeep : ℤ)))
      (rowPlacements.drop start.toNat).take bricksToKeep

/-- Falloff selector, from BrickWall.applyFalloff (BrickWall.ts lines 211 to
293).  The guards follow the source order: clamped falloff not positive, no
anchor supplied, or at most one row, then a defensive total length check;
otherwise the anchor is projected onto the curve by sampling and every row
is pruned by processRow, rows iterated in first-occurrence order.  A ℕ row
count is always finite, so the Number.isFinite(rows) disjunct of line 222
is always false here. -/
def applyFalloff (placements : List BrickPlacement) (params : BrickParameters)
    (curve : Curve) (falloffAnchor : Option Vec3) : List BrickPlacement :=
  let clampedFalloff := max 0 (min params.falloff 1)
  if clampedFalloff ≤ 0 then placements
  else
    match falloffAnchor with
    | none => placements
    | some anchor =>
        if params.rows ≤ 1 then placements
        else
          let totalLength := curve.getLength
          if totalLength ≤ 0 then placements
          else
            let anchorDistance := bestAnchorU curve anchor.x anchor.z * totalLength
            (rowKeys placements).flatMap fun r =>
              processRow clampedFalloff params.rows anchorDistance r
                (sortByDistance (placements.filter (fun q => q.row == r)))

/-- Effective gap-shrunk box dimensions in source order: length, height,
width. -/
structure EffectiveDims where
  length : ℚ
  height : ℚ
  width : ℚ
deriving DecidableEq

/-- Gap shrink of the brick box, from BrickWall.applyPlacements
(BrickWall.ts lines 306 to 313): the gap is clamped between 0 and the
smallest nominal dimension minus 0.01, and each effective dimension is the
nominal dimension minus the clamped gap, floored at 0.01. -/
def effectiveDims (params : BrickParameters) : EffectiveDims :=
  let maxShrink :=
    max 0 (min params.brickLength (min params.brickWidth params.brickHeight) - 1 / 100)
  let clampedGap := max 0 (min params.gap maxShrink)
  { length := max (params.brickLength - clampedGap) (1 / 100)
    height := max (params.brickHeight - clampedGap) (1 / 100)
    width := max (params.brickWidth - clampedGap) (1 / 100) }

/-- Window complement selector.  Modelled from the spec: the flip-falloff
direction flag described by the repository README ("Flip Falloff toggle
that swaps removal vs retention near the anchor") and spec section 4.3
("discard that window, keep the remainder split at the row ends") is absent
from BrickParameters and from BrickWall.applyFalloff in src; this function
realizes the flipped policy for comparison: the contiguous window that
processRow keeps is discarded and the rest of the row survives. -/
def processRowFlipped (clampedFalloff : ℚ) (rowsCount : ℕ) (anchorDistance : ℚ)
    (row : ℕ) (rowPlacements : List BrickPlacement) : List BrickPlacement :=
  if row = 0 then rowPlacements
  else
    let rowFactor : ℚ :=
      if 1 < rowsCount then (row : ℚ) / ((rowsCount : ℚ) - 1) else 0
    let keepFraction := 1 - clampedFalloff * rowFactor
    if 999 / 1000 ≤ keepFraction then rowPlacements
    else
      let totalBricks := rowPlacements.length
      let bricksToKeep :=
        min totalBricks (max 1 (jsRound ((totalBricks : ℚ) * keepFraction))).toNat
      let ci := closestIdx rowPlacements anchorDistance
      let start : ℤ :=
        max 0 (min ((ci : ℤ) - (((bricksToKeep - 1) / 2 : ℕ) : ℤ))
          ((totalBricks : ℤ) - (bricksToKeep : ℤ)))
      rowPlacements.take start.toNat ++ rowPlacements.drop (start.toNat + bricksToKeep)

/-- Modelled from the spec: applyFalloff with the flip-falloff flag set,
identical to applyFalloff except that each pruned row keeps the complement
of the near window (see processRowFlipped). -/
def applyFalloffFlipped (placements : List BrickPlacement)
    (params : BrickParameters) (curve : Curve) (falloffAnchor : Option Vec3) :
    List BrickPlacement :=
  let clampedFalloff := max 0 (min params.falloff 1)
  if clampedFalloff ≤ 0 then placements
  else
    match falloffAnchor with
    | none => placements
    | some anchor =>
        if params.rows ≤ 1 then placements
        else
          let totalLength := curve.getLength
          if totalLength ≤ 0 then placements
          else
            let anchorDistance := bestAnchorU curve anchor.x anchor.z * totalLength
            (rowKeys placements).flatMap fun r =>
              processRowFlipped clampedFalloff params.rows anchorDistance r
                (sortByDistance (placements.filter (fun q => q.row == r)))

/-- Spec-side row placement formula, written from the words of claim C2
(spec section 4.2) for comparison with computePlacements: per row, offset
brickLength / 2 on odd rows and 0 on even rows, brick count
max(1, floor(max(totalLength - offset, brickLength) / brickLength)), center
distances offset + (i + 1/2) * brickLength, omitting centers past the total
length. -/
def placementsPerSpec (curve : Curve) (params : BrickParameters) :
    List BrickPlacement :=
  (List.range params.rows).flatMap fun (r : ℕ) =>
    let offset : ℚ := if r % 2 = 1 then params.brickLength / 2 else 0
    let count :=
      (max 1 ⌊max (curve.getLength - offset) params.brickLength /
        params.brickLength⌋).toNat
    ((List.range count).map fun (i : ℕ) =>
        (⟨offset + ((i : ℚ) + 1 / 2) * params.brickLength, r⟩ : BrickPlacement)).filter
      fun q => q.distance ≤ curve.getLength

/-- Number of placements of a list lying on a given row. -/
def countRow (l : List BrickPlacement) (r : ℕ) : ℕ :=
  (l.filter (fun q => q.row == r)).length

/-- Survivor count of a pruned row as a function of the keep fraction and
the row size, isolated from processRow for the monotonicity analysis. -/
def keepCore (t : ℕ) (keepFraction : ℚ) : ℕ :=
  if 999 / 1000 ≤ keepFraction then t
  else min t (max 1 (jsRound ((t : ℚ) * keepFraction))).toNat

/-- Survivor count of a row under applyFalloff as a function of the clamped
falloff, the row count, the row index and the row size. -/
def keepCount (clampedFalloff : ℚ) (rowsCount : ℕ) (row : ℕ) (t : ℕ) : ℕ :=
  if row = 0 then t
  else
    let rowFactor : ℚ :=
      if 1 < rowsCount then (row : ℚ) / ((rowsCount : ℚ) - 1) else 0
    keepCore t (1 - clampedFalloff * rowFactor)

/-- Straight horizontal test curve of a given length with the start at the
origin, used as a concrete Curve value in witnesses and counterexamples. -/
def lineCurve (len : ℚ) : Curve :=
  ⟨len, fun u => ⟨u * len, 0, 0⟩⟩

/-- Component sum for Vec3 values. -/
def vadd (a b : Vec3) : Vec3 := ⟨a.x + b.x, a.y + b.y, a.z + b.z⟩

/-- Component difference for Vec3 values. -/
def vsub (a b : Vec3) : Vec3 := ⟨a.x - b.x, a.y - b.y, a.z - b.z⟩

/-- Scalar multiple of a Vec3 value. -/
def vsmul (s : ℚ) (a : Vec3) : Vec3 := ⟨s * a.x, s * a.y, s * a.z⟩

/-- Bounded binary search for the integer square root: within the interval
from lo to hi, assuming enough fuel, converges to the largest k with
k * k ≤ n when it lies in the interval. -/
def isqrtAux (n : ℕ) : ℕ → ℕ → ℕ → ℕ
  | 0, lo, _ => lo
  | fuel + 1, lo, hi =>
    if hi ≤ lo then lo
    else
      let mid := (lo + hi + 1) / 2
      if mid * mid ≤ n then isqrtAux n fuel mid hi
      else isqrtAux n fuel lo (mid - 1)

/-- Integer square root by binary search (kernel-reducible, unlike the
library Newton iteration). -/
def isqrt (n : ℕ) : ℕ := isqrtAux n n 0 n

/-- Rational model of Math.sqrt: exact on perfect squares, which are the
only inputs on which the development ever evaluates it (the concrete test
curves are chosen so that every chord length is rational); on arguments
with an irrational real square root no rational answer exists and the
function returns 0.  The two properties used are ratSqrt_mul_self and
ratSqrt_smul below. -/
def ratSqrt (q : ℚ) : ℚ :=
  if 0 ≤ q then
    let c : ℚ := (isqrt q.num.toNat : ℚ) / (isqrt q.den : ℚ)
    if c * c = q then c else 0
  else 0

/-- Euclidean distance of two Vec3 values, modelling
THREE.Vector3.distanceTo. -/
def dist3 (a b : Vec3) : ℚ :=
  ratSqrt ((a.x - b.x) * (a.x - b.x) + (a.y - b.y) * (a.y - b.y) +
    (a.z - b.z) * (a.z - b.z))

/-- One coordinate of a Catmull-Rom segment, from the three.js CubicPoly
with initCatmullRom at tension 1/2 (the curveType catmullrom branch used by
BrickWall.createCurve): hermite interpolation of x1 and x2 with tangents
tension * (x2 - x0) and tension * (x3 - x1), evaluated at the local
parameter w. -/
def crComponent (x0 x1 x2 x3 w : ℚ) : ℚ :=
  let t0 := 1 / 2 * (x2 - x0)
  let t1 := 1 / 2 * (x3 - x1)
  x1 + t0 * w + (-3 * x1 + 3 * x2 - 2 * t0 - t1) * w ^ 2 +
    (2 * x1 - 2 * x2 + t0 + t1) * w ^ 3

/-- Spline point lookup of THREE.CatmullRomCurve3.getPoint for a non-closed
curve with curveType catmullrom and tension 1/2, as constructed by
BrickWall.createCurve: segment selection by flooring (l - 1) * t with the
end correction at t = 1, reflected end control points, and per-coordinate
cubic evaluation.  The modulo on the indices of the source is the identity
for the non-closed index ranges reached with t between 0 and 1. -/
def crGetPoint (pts : List Vec3) (t : ℚ) : Vec3 :=
  let d : Vec3 := ⟨0, 0, 0⟩
  let l := pts.length
  let p := ((l : ℚ) - 1) * t
  let ip : ℤ := ⌊p⌋
  let w : ℚ := p - (ip : ℚ)
  let intPoint : ℤ := if w = 0 ∧ ip = (l : ℤ) - 1 then (l : ℤ) - 2 else ip
  let weight : ℚ := if w = 0 ∧ ip = (l : ℤ) - 1 then 1 else w
  let p0 : Vec3 :=
    if 0 < intPoint then pts.getD (intPoint - 1).toNat d
    else vsub (vsmul 2 (pts.getD 0 d)) (pts.getD 1 d)
  let p1 := pts.getD intPoint.toNat d
  let p2 := pts.getD (intPoint + 1).toNat d
  let p3 : Vec3 :=
    if intPoint + 2 < (l : ℤ) then pts.getD (intPoint + 2).toNat d
    else vsub (vsmul 2 (pts.getD (l - 1) d)) (pts.getD (l - 2) d)
  ⟨crComponent p0.x p1.x p2.x p3.x weight,
   crComponent p0.y p1.y p2.y p3.y weight,
   crComponent p0.z p1.z p2.z p3.z weight⟩

/-- Cumulative arc length table of THREE.Curve.getLengths with the default
200 arc length divisions: 201 entries, entry p holding the sum of the chord
distances of the first p of 200 uniform parameter steps. -/
def crLengths (pts : List Vec3) : List ℚ :=
  ((List.range 200).foldl
    (fun (acc : List ℚ × Vec3 × ℚ) (j : ℕ) =>
      let current := crGetPoint pts (((j : ℚ) + 1) / 200)
      let sum := acc.2.2 + dist3 current acc.2.1
      (acc.1 ++ [sum], current, sum))
    ([0], crGetPoint pts 0, 0)).1

/-- Total arc length of THREE.Curve.getLength: the last entry of the
cumulative table. -/
def crGetLength (pts : List Vec3) : ℚ :=
  (crLengths pts).getD 200 0

/-- Binary search loop of THREE.Curve.getUtoTmapping, with fuel standing in
for the while loop; returns the final value of the JavaScript variable i,
which is high at loop exit and the matched index on an exact hit. -/
def crBisect (al : List ℚ) (target : ℚ) : ℕ → ℤ → ℤ → ℤ
  | 0, _, high => high
  | fuel + 1, low, high =>
    if low ≤ high then
      let i := (low + high) / 2
      let comparison := al.getD i.toNat 0 - target
      if comparison < 0 then crBisect al target fuel (i + 1) high
      else if 0 < comparison then crBisect al target fuel low (i - 1)
      else i
    else high

/-- Arc length fraction to parameter mapping of THREE.Curve.getUtoTmapping
acting on a given cumulative arc length table: binary search in the table
for the target arc length u times the total, then linear interpolation
inside the matched sample interval. -/
def crUtoTOnTable (arcLengths : List ℚ) (u : ℚ) : ℚ :=
  let il := arcLengths.length
  let target := u * arcLengths.getD (il - 1) 0
  let i := crBisect arcLengths target il 0 ((il : ℤ) - 1)
  if arcLengths.getD i.toNat 0 = target then (i : ℚ) / ((il : ℚ) - 1)
  else
    let lengthBefore := arcLengths.getD i.toNat 0
    let lengthAfter := arcLengths.getD (i + 1).toNat 0
    let segmentFraction := (target - lengthBefore) / (lengthAfter - lengthBefore)
    ((i : ℚ) + segmentFraction) / ((il : ℚ) - 1)

/-- Arc length fraction to parameter mapping of THREE.Curve.getUtoTmapping
(the table is cached by three.js in cacheArcLengths and rebuilt only on
needsUpdate, so a pure table function is the faithful reading). -/
def crUtoT (pts : List Vec3) (u : ℚ) : ℚ :=
  crUtoTOnTable (crLengths pts) u

/-- Arc length parameterized point lookup of THREE.Curve.getPointAt. -/
def crGetPointAt (pts : List Vec3) (u : ℚ) : Vec3 :=
  crGetPoint pts (crUtoT pts u)

/-- Packaging of the embedded three.js spline as the Curve interface that
BrickWall consumes; the cumulative arc length table is shared by the total
length and by every point lookup, exactly as the three.js curve caches it. -/
def curveOf (pts : List Vec3) : Curve :=
  let al := crLengths pts
  ⟨al.getD 200 0, fun u => crGetPoint pts (crUtoTOnTable al u)⟩

/-- Curve builder, from BrickWall.createCurve (BrickWall.ts lines 158 to
181): subtract the centroid of the editor points, scale x by worldWidth and
y (mapped to the world z axis) by worldDepth, y world coordinate zero. -/
def createCurve (points : List CurvePoint) (worldWidth worldDepth : ℚ) :
    List Vec3 :=
  let centerX := (points.foldl (fun s q => s + q.x) 0) / (points.length : ℚ)
  let centerY := (points.foldl (fun s q => s + q.y) 0) / (points.length : ℚ)
  points.map fun q =>
    ⟨(q.x - centerX) * worldWidth, 0, (q.y - centerY) * worldDepth⟩

/-- Control points of the curve produced by BrickWall.update (BrickWall.ts
lines 37 to 51): build at the base world scale 30 by 14; when a positive
target length is supplied and the base length is finite and positive,
rebuild with both world factors multiplied by targetLength / baseLength. -/
def updateCurvePts (points : List CurvePoint) (targetLength : Option ℚ) :
    List Vec3 :=
  let base := createCurve points 30 14
  match targetLength with
  | none => base
  | some t =>
      if 0 < t then
        let baseLength := crGetLength base
        if 0 < baseLength then
          createCurve points (30 * (t / baseLength)) (14 * (t / baseLength))
        else base
      else base

/-- Centroid of n + 1 curve samples taken uniformly in the arc length
fraction u from 0 to 1, on the two horizontal axes (the claim C4 sampling). -/
def sampleCentroid (curve : Curve) (n : ℕ) : ℚ × ℚ :=
  let pts := (List.range (n + 1)).map fun (i : ℕ) =>
    curve.getPointAt ((i : ℚ) / (n : ℚ))
  (((pts.map Vec3.x).sum) / ((n : ℚ) + 1), ((pts.map Vec3.z).sum) / ((n : ℚ) + 1))

/-- Concrete parameters for the claim C1 demonstration. -/
def pC1 : BrickParameters :=
  { brickLength := 2, brickWidth := 1, brickHeight := 1 / 2, gap := 0,
    falloff := 1, rows := 2 }

/-- Concrete placements for the claim C1 demonstration. -/
def psC1 : List BrickPlacement := computePlacements (lineCurve 6) pC1

/-- Concrete parameters for the claim C3 counterexample. -/
def pC3 : BrickParameters :=
  { brickLength := 2, brickWidth := 1, brickHeight := 1 / 2, gap := 0,
    falloff := 0, rows := 2 }

/-- Concrete parameters for the claim C5 counterexample. -/
def pC5 : BrickParameters :=
  { brickLength := 2, brickWidth := 1, brickHeight := 1 / 2, gap := 0,
    falloff := 1, rows := 11 }

/-- Concrete placements for the claim C5 counterexample. -/
def psC5 : List BrickPlacement := computePlacements (lineCurve 8) pC5

/-- Concrete parameters for the claim C9 counterexample: a brick height
below the 0.01 epsilon, all dimensions positive and the gap inside the
claimed range. -/
def pC9 : BrickParameters :=
  { brickLength := 1, brickWidth := 1, brickHeight := 1 / 200, gap := 0,
    falloff := 0, rows := 1 }

/-- Editor points of the claim C4 counterexample: three collinear points
along the direction (3, 4) with uneven spacing, so the built spline is a
segment of a straight world line along (90, 56) (all chord lengths
rational) while the arc length uniform sample centroid sits away from the
origin. -/
def ptsC4 : List CurvePoint := [⟨0, 0⟩, ⟨3 / 10, 2 / 5⟩, ⟨3 / 4, 1⟩]

/-- Curve of the claim C4 counterexample as built by createCurve at the
base world scale of BrickWall. -/
def curveC4 : Curve := curveOf (createCurve ptsC4 30 14)

/-- Editor points of the claim C6 witness. -/
def ptsC6 : List CurvePoint := [⟨0, 0⟩, ⟨1, 0⟩]

/-!
Helper lemmas about the embedded operations.
-/

theorem sortByDistance_perm (l : List BrickPlacement) :
    (sortByDistance l).Perm l :=
  List.perm_insertionSort _ l

theorem mem_sortByDistance {l : List BrickPlacement} {q : BrickPlacement} :
    q ∈ sortByDistance l ↔ q ∈ l :=
  (sortByDistance_perm l).mem_iff

theorem length_sortByDistance (l : List BrickPlacement) :
    (sortByDistance l).length = l.length :=
  (sortByDistance_perm l).length_eq

theorem processRow_subset {f : ℚ} {n : ℕ} {ad : ℚ} {r : ℕ}
    {l : List BrickPlacement} {q : BrickPlacement}
    (hq : q ∈ processRow f n ad r l) : q ∈ l := by
  simp only [processRow] at hq
  split_ifs at hq
  all_goals
    first
      | exact hq
      | exact List.mem_of_mem_drop (List.mem_of_mem_take hq)

theorem processRow_row_eq {f : ℚ} {n : ℕ} {ad : ℚ} {r : ℕ}
    {l : List BrickPlacement} (hl : ∀ x ∈ l, x.row = r) :
    ∀ q ∈ processRow f n ad r l, q.row = r :=
  fun q hq => hl q (processRow_subset hq)

theorem rowKeys_go_mem (ps : List BrickPlacement) (acc : List ℕ) (r : ℕ) :
    r ∈ ps.foldl (fun ks q => if q.row ∈ ks then ks else ks ++ [q.row]) acc ↔
      r ∈ acc ∨ ∃ q ∈ ps, q.row = r := by
  induction ps generalizing acc with
  | nil => simp
  | cons a t ih =>
      simp only [List.foldl_cons, ih, List.mem_cons]
      by_cases h : a.row ∈ acc
      · rw [if_pos h]
        constructor
        · rintro (h1 | ⟨q, hq, hqr⟩)
          · exact Or.inl h1
          · exact Or.inr ⟨q, Or.inr hq, hqr⟩
        · rintro (h1 | ⟨q, hq, hqr⟩)
          · exact Or.inl h1
          · rcases hq with hq | hq
            · exact Or.inl (hqr ▸ hq ▸ h)
            · exact Or.inr ⟨q, hq, hqr⟩
      · rw [if_neg h]
        simp only [List.mem_append, List.mem_singleton]
        constructor
        · rintro ((h1 | h1) | ⟨q, hq, hqr⟩)
          · exact Or.inl h1
          · exact Or.inr ⟨a, Or.inl rfl, h1.symm⟩
          · exact Or.inr ⟨q, Or.inr hq, hqr⟩
        · rintro (h1 | ⟨q, hq, hqr⟩)
          · exact Or.inl (Or.inl h1)
          · rcases hq with hq | hq
            · exact Or.inl (Or.inr (hq ▸ hqr.symm))
            · exact Or.inr ⟨q, hq, hqr⟩

theorem rowKeys_go_nodup (ps : List BrickPlacement) (acc : List ℕ)
    (hacc : acc.Nodup) :
    (ps.foldl (fun ks q => if q.row ∈ ks then ks else ks ++ [q.row]) acc).Nodup := by
  induction ps generalizing acc with
  | nil => exact hacc
  | cons a t ih =>
      simp only [List.foldl_cons]
      by_cases h : a.row ∈ acc
      · rw [if_pos h]; exact ih acc hacc
      · rw [if_neg h]
        refine ih _ ?_
        simp [List.nodup_append, hacc, h]

theorem rowKeys_mem {ps : List BrickPlacement} {r : ℕ} :
    r ∈ rowKeys ps ↔ ∃ q ∈ ps, q.row = r := by
  unfold rowKeys
  rw [rowKeys_go_mem]
  simp

theorem rowKeys_nodup (ps : List BrickPlacement) : (rowKeys ps).Nodup :=
  rowKeys_go_nodup ps [] List.nodup_nil

theorem filter_flatMap_keys (keys : List ℕ) (g : ℕ → List BrickPlacement)
    (hg : ∀ k, ∀ q ∈ g k, q.row = k) (hnd : keys.Nodup) (r : ℕ) :
    (keys.flatMap g).filter (fun q => q.row == r) =
      if r ∈ keys then g r else [] := by
  induction keys with
  | nil => simp
  | cons k ks ih =>
      have hnd' : ks.Nodup := hnd.of_cons
      simp only [List.flatMap_cons, List.filter_append, ih hnd', List.mem_cons]
      by_cases hkr : r = k
      · subst hkr
        have h1 : (g r).filter (fun q => q.row == r) = g r :=
          List.filter_eq_self.mpr fun q hq => by
            simp [hg r q hq]
        have h2 : r ∉ ks := (List.nodup_cons.mp hnd).1
        simp [h1, h2]
      · have h1 : (g k).filter (fun q => q.row == r) = [] :=
          List.filter_eq_nil_iff.mpr fun q hq => by
            simp [hg k q hq, Ne.symm hkr]
        by_cases h2 : r ∈ ks
        · simp [h1, h2, hkr]
        · simp [h1, h2, hkr]

theorem processRow_length (f : ℚ) (n : ℕ) (ad : ℚ) (r : ℕ)
    (l : List BrickPlacement) :
    (processRow f n ad r l).length = keepCount f n r l.length := by
  simp only [processRow, keepCount, keepCore]
  split_ifs
  any_goals rfl
  all_goals
    rw [List.length_take, List.length_drop]
    generalize jsRound _ = z
    have h1 : (1 : ℤ) ≤ max 1 z := le_max_left _ _
    omega

theorem keepCount_zero (f : ℚ) (n : ℕ) (r : ℕ) : keepCount f n r 0 = 0 := by
  simp only [keepCount, keepCore]
  split_ifs <;> simp

theorem keepCount_pos {f : ℚ} {n : ℕ} {r t : ℕ} (h : 0 < t) :
    0 < keepCount f n r t := by
  simp only [keepCount, keepCore]
  split_ifs
  any_goals exact h
  all_goals
    generalize jsRound _ = z
    have h1 : (1 : ℤ) ≤ max 1 z := le_max_left _ _
    omega

theorem processRow_ne_nil {f : ℚ} {n : ℕ} {ad : ℚ} {r : ℕ}
    {l : List BrickPlacement} (hl : l ≠ []) : processRow f n ad r l ≠ [] := by
  rw [← List.length_pos, processRow_length]
  exact keepCount_pos (List.length_pos.mpr hl)

theorem keepCore_le (t : ℕ) (kf : ℚ) : keepCore t kf ≤ t := by
  unfold keepCore
  split_ifs
  · exact le_rfl
  · exact Nat.min_le_left _ _

theorem keepCount_le (f : ℚ) (n : ℕ) (r : ℕ) (t : ℕ) :
    keepCount f n r t ≤ t := by
  simp only [keepCount]
  split_ifs
  all_goals first | exact le_rfl | exact keepCore_le _ _

theorem jsRound_mono {a b : ℚ} (h : a ≤ b) : jsRound a ≤ jsRound b :=
  Int.floor_le_floor (by linarith)

theorem keepCore_mono (t : ℕ) {a b : ℚ} (h : a ≤ b) :
    keepCore t a ≤ keepCore t b := by
  unfold keepCore
  split_ifs with h1 h2
  · exact le_rfl
  · exact absurd (le_trans h1 h) h2
  · exact Nat.min_le_left _ _
  · refine min_le_min le_rfl ?_
    refine Int.toNat_le_toNat (max_le_max le_rfl ?_)
    exact jsRound_mono (mul_le_mul_of_nonneg_left h (Nat.cast_nonneg t))

theorem keepCount_anti_falloff {f1 f2 : ℚ} (h12 : f1 ≤ f2) (n : ℕ) (r : ℕ)
    (t : ℕ) : keepCount f2 n r t ≤ keepCount f1 n r t := by
  by_cases hn : 1 < n
  · simp only [keepCount, if_pos hn]
    split_ifs with h0
    · exact le_rfl
    · apply keepCore_mono
      have hn' : (1 : ℚ) < (n : ℚ) := by exact_mod_cast hn
      have hrf : (0 : ℚ) ≤ (r : ℚ) / ((n : ℚ) - 1) :=
        div_nonneg (Nat.cast_nonneg r) (by linarith)
      have := mul_le_mul_of_nonneg_right h12 hrf
      linarith
  · simp only [keepCount, if_neg hn]
    split_ifs with h0
    · exact le_rfl
    · apply keepCore_mono
      simp

theorem keepCount_anti_row {f : ℚ} (hf : 0 ≤ f) (n : ℕ) {r1 r2 : ℕ}
    (h : r1 ≤ r2) (t : ℕ) : keepCount f n r2 t ≤ keepCount f n r1 t := by
  by_cases hn : 1 < n
  · simp only [keepCount, if_pos hn]
    split_ifs with h1 h2
    · exact le_rfl
    · exfalso; omega
    · exact keepCore_le _ _
    · apply keepCore_mono
      have hn' : (1 : ℚ) < (n : ℚ) := by exact_mod_cast hn
      have hc : ((r1 : ℚ) / ((n : ℚ) - 1)) ≤ (r2 : ℚ) / ((n : ℚ) - 1) :=
        (div_le_div_right (by linarith)).mpr (by exact_mod_cast h)
      have := mul_le_mul_of_nonneg_left hc hf
      linarith
  · simp only [keepCount, if_neg hn]
    split_ifs with h1 h2
    · exact le_rfl
    · exfalso; omega
    · exact keepCore_le _ _
    · exact le_rfl

theorem applyFalloff_none (ps : List BrickPlacement) (p : BrickParameters)
    (c : Curve) : applyFalloff ps p c none = ps := by
  simp only [applyFalloff]
  split_ifs <;> rfl

theorem applyFalloff_some_eq (ps : List BrickPlacement) (p : BrickParameters)
    (c : Curve) (a : Vec3) :
    applyFalloff ps p c (some a) =
      if max 0 (min p.falloff 1) ≤ 0 then ps
      else if p.rows ≤ 1 then ps
      else if c.getLength ≤ 0 then ps
      else
        (rowKeys ps).flatMap fun r =>
          processRow (max 0 (min p.falloff 1)) p.rows
            (bestAnchorU c a.x a.z * c.getLength) r
            (sortByDistance (ps.filter fun q => q.row == r)) := rfl

theorem applyFalloff_of_falloff_nonpos (ps : List BrickPlacement)
    (p : BrickParameters) (c : Curve) (oa : Option Vec3)
    (hf : max 0 (min p.falloff 1) ≤ 0) : applyFalloff ps p c oa = ps := by
  cases oa with
  | none => exact applyFalloff_none ps p c
  | some a => rw [applyFalloff_some_eq, if_pos hf]

theorem applyFalloff_of_rows_le_one (ps : List BrickPlacement)
    (p : BrickParameters) (c : Curve) (oa : Option Vec3)
    (hr : p.rows ≤ 1) : applyFalloff ps p c oa = ps := by
  cases oa with
  | none => exact applyFalloff_none ps p c
  | some a =>
      rw [applyFalloff_some_eq]
      split_ifs <;> rfl

theorem applyFalloff_of_length_nonpos (ps : List BrickPlacement)
    (p : BrickParameters) (c : Curve) (oa : Option Vec3)
    (hL : c.getLength ≤ 0) : applyFalloff ps p c oa = ps := by
  cases oa with
  | none => exact applyFalloff_none ps p c
  | some a =>
      rw [applyFalloff_some_eq]
      split_ifs <;> rfl

theorem applyFalloff_active (ps : List BrickPlacement) (p : BrickParameters)
    (c : Curve) (a : Vec3) (hf : ¬ max 0 (min p.falloff 1) ≤ 0)
    (hr : ¬ p.rows ≤ 1) (hL : ¬ c.getLength ≤ 0) :
    applyFalloff ps p c (some a) =
      (rowKeys ps).flatMap fun r =>
        processRow (max 0 (min p.falloff 1)) p.rows
          (bestAnchorU c a.x a.z * c.getLength) r
          (sortByDistance (ps.filter fun q => q.row == r)) := by
  rw [applyFalloff_some_eq, if_neg hf, if_neg hr, if_neg hL]

theorem countRow_applyFalloff_active (ps : List BrickPlacement)
    (p : BrickParameters) (c : Curve) (a : Vec3)
    (hf : ¬ max 0 (min p.falloff 1) ≤ 0) (hr : ¬ p.rows ≤ 1)
    (hL : ¬ c.getLength ≤ 0) (r : ℕ) :
    countRow (applyFalloff ps p c (some a)) r =
      keepCount (max 0 (min p.falloff 1)) p.rows r (countRow ps r) := by
  have hg : ∀ k, ∀ q ∈ processRow (max 0 (min p.falloff 1)) p.rows
      (bestAnchorU c a.x a.z * c.getLength) k
      (sortByDistance (ps.filter fun x => x.row == k)), q.row = k := by
    intro k q hq
    refine processRow_row_eq (fun x hx => ?_) q hq
    have hx' := List.mem_filter.mp (mem_sortByDistance.mp hx)
    simpa using hx'.2
  rw [countRow, applyFalloff_active ps p c a hf hr hL,
    filter_flatMap_keys _ _ hg (rowKeys_nodup ps) r]
  by_cases hmem : r ∈ rowKeys ps
  · rw [if_pos hmem, processRow_length, length_sortByDistance]
    rfl
  · rw [if_neg hmem]
    have h0 : countRow ps r = 0 := by
      rw [countRow, List.length_eq_zero]
      refine List.filter_eq_nil_iff.mpr fun q hq hbeq => ?_
      exact hmem (rowKeys_mem.mpr ⟨q, hq, by simpa using hbeq⟩)
    rw [h0, keepCount_zero]
    rfl

theorem countRow_applyFalloff_le (ps : List BrickPlacement)
    (p : BrickParameters) (c : Curve) (oa : Option Vec3) (r : ℕ) :
    countRow (applyFalloff ps p c oa) r ≤ countRow ps r := by
  cases oa with
  | none => rw [applyFalloff_none]
  | some a =>
      by_cases hf : max 0 (min p.falloff 1) ≤ 0
      · rw [applyFalloff_of_falloff_nonpos _ _ _ _ hf]
      · by_cases hr : p.rows ≤ 1
        · rw [applyFalloff_of_rows_le_one _ _ _ _ hr]
        · by_cases hL : c.getLength ≤ 0
          · rw [applyFalloff_of_length_nonpos _ _ _ _ hL]
          · rw [countRow_applyFalloff_active ps p c a hf hr hL r]
            exact keepCount_le _ _ _ _

theorem processRow_sorted_filter_rows (ps : List BrickPlacement) (f : ℚ)
    (n : ℕ) (ad : ℚ) :
    ∀ k, ∀ q ∈ processRow f n ad k
      (sortByDistance (ps.filter fun x => x.row == k)), q.row = k := by
  intro k q hq
  refine processRow_row_eq (fun x hx => ?_) q hq
  have hx' := List.mem_filter.mp (mem_sortByDistance.mp hx)
  simpa using hx'.2

theorem filterMap_guard_eq_map_filter (L : ℚ) (g : ℕ → ℚ) (r : ℕ)
    (l : List ℕ) :
    (l.filterMap fun i =>
      if L < g i then none else some (⟨g i, r⟩ : BrickPlacement)) =
    ((l.map fun i => (⟨g i, r⟩ : BrickPlacement)).filter fun q =>
      decide (q.distance ≤ L)) := by
  induction l with
  | nil => rfl
  | cons a t ih =>
      simp only [List.filterMap_cons, List.map_cons, List.filter_cons]
      by_cases h : L < g a
      · rw [if_pos h]
        have h2 : ¬ (g a ≤ L) := not_le.mpr h
        simp [h2, ih]
      · rw [if_neg h]
        have h2 : g a ≤ L := not_lt.mp h
        simp [h2, ih]

theorem foldl_add_map (l : List CurvePoint) (f : CurvePoint → ℚ) (a : ℚ) :
    l.foldl (fun s q => s + f q) a = a + (l.map f).sum := by
  induction l generalizing a with
  | nil => simp
  | cons x t ih => simp [ih]; ring

theorem sum_map_sub_const (l : List CurvePoint) (f : CurvePoint → ℚ) (c : ℚ) :
    (l.map fun q => f q - c).sum = (l.map f).sum - (l.length : ℚ) * c := by
  induction l with
  | nil => simp
  | cons x t ih =>
      simp only [List.map_cons, List.sum_cons, ih, List.length_cons]
      push_cast
      ring

theorem sum_map_mul_weight (l : List CurvePoint) (f : CurvePoint → ℚ)
    (w : ℚ) : (l.map fun q => f q * w).sum = (l.map f).sum * w := by
  induction l with
  | nil => simp
  | cons x t ih =>
      simp only [List.map_cons, List.sum_cons, ih]
      ring

theorem centered_sum (l : List CurvePoint) (f : CurvePoint → ℚ) (w : ℚ)
    (hn : ((l.length : ℚ)) ≠ 0) :
    (l.map fun q =>
      (f q - (l.foldl (fun s x => s + f x) 0) / (l.length : ℚ)) * w).sum = 0 := by
  rw [sum_map_mul_weight, sum_map_sub_const, foldl_add_map, zero_add,
    mul_comm ((l.length : ℚ)) ((l.map f).sum / (l.length : ℚ)),
    div_mul_cancel₀ _ hn, sub_self, zero_mul]

/-!
Claim theorems.
-/

/-- C1 (code bug demonstration): BrickParameters carries no flip-falloff
flag and applyFalloff implements only the policy keeping the contiguous
window centered on the anchor projection: at a concrete two-row input its
output is the near window, which differs from the complementary far
selection produced by the flipped policy the README and the spec describe
(modelled by applyFalloffFlipped). -/
theorem claim_C1_flip_missing :
    applyFalloff psC1 pC1 (lineCurve 6) (some ⟨0, 0, 0⟩) =
      [⟨1, 0⟩, ⟨3, 0⟩, ⟨5, 0⟩, ⟨2, 1⟩] ∧
    applyFalloffFlipped psC1 pC1 (lineCurve 6) (some ⟨0, 0, 0⟩) =
      [⟨1, 0⟩, ⟨3, 0⟩, ⟨5, 0⟩, ⟨4, 1⟩] ∧
    applyFalloff psC1 pC1 (lineCurve 6) (some ⟨0, 0, 0⟩) ≠
      applyFalloffFlipped psC1 pC1 (lineCurve 6) (some ⟨0, 0, 0⟩) := by
  decide!

/-- C2: on a curve of positive length with positive brick length and at
least one row, computePlacements returns exactly the placements described
by the spec formula: per row r the offset is brickLength / 2 for odd r and
0 for even r, the brick count is max(1, floor(max(L - offset, b) / b)), the
centers are offset + (i + 1/2) b, and centers past the total length are
omitted. -/
theorem claim_C2_row_formula (c : Curve) (p : BrickParameters)
    (hL : 0 < c.getLength) (hb : 0 < p.brickLength) (hr : 1 ≤ p.rows) :
    computePlacements c p = placementsPerSpec c p := by
  unfold computePlacements placementsPerSpec
  rw [if_neg (not_le.mpr hL)]
  congr 1
  funext row
  exact filterMap_guard_eq_map_filter (c.getLength)
    (fun i => (if row % 2 = 1 then p.brickLength / 2 else 0) +
      ((i : ℚ) + 1 / 2) * p.brickLength) row _

/-- Witness for C2 at a concrete curve and parameter set. -/
theorem claim_C2_witness :
    0 < (lineCurve 10).getLength ∧ 0 < pC1.brickLength ∧ 1 ≤ pC1.rows ∧
    computePlacements (lineCurve 10) pC1 = placementsPerSpec (lineCurve 10) pC1 :=
  ⟨by decide!, by decide!, by decide!,
    claim_C2_row_formula (lineCurve 10) pC1 (by decide!) (by decide!) (by decide!)⟩

/-- C3 (counterexample): on a curve of length 3/2 with brick length 2 and
two rows, all claim hypotheses hold, yet row 1 receives no placement: its
only candidate center 2 exceeds the total length and is skipped, so not
every row is nonempty on curves shorter than one brick length. -/
theorem claim_C3_counterexample :
    0 < (lineCurve (3 / 2)).getLength ∧ 0 < pC3.brickLength ∧ 1 < pC3.rows ∧
    (computePlacements (lineCurve (3 / 2)) pC3).filter
      (fun q => q.row == 1) = [] := by
  decide!

/-- C3 (amended): a row r of computePlacements is guaranteed nonempty
exactly when its first brick center, offset plus half a brick, does not
exceed the curve length; in that case the first brick of the row survives
the overrun guard.  Rows whose first center exceeds the total length (odd
rows when L < brickLength, even rows when L < brickLength / 2) are empty,
as the counterexample shows. -/
theorem claim_C3_row_presence (c : Curve) (p : BrickParameters) (r : ℕ)
    (hL : 0 < c.getLength) (hb : 0 < p.brickLength) (hr : r < p.rows)
    (hfit : (if r % 2 = 1 then p.brickLength / 2 else 0) +
      p.brickLength / 2 ≤ c.getLength) :
    ∃ q ∈ computePlacements c p, q.row = r := by
  unfold computePlacements
  rw [if_neg (not_le.mpr hL)]
  refine ⟨⟨(if r % 2 = 1 then p.brickLength / 2 else 0) +
    (((0 : ℕ) : ℚ) + 1 / 2) * p.brickLength, r⟩, ?_, rfl⟩
  rw [List.mem_flatMap]
  refine ⟨r, List.mem_range.mpr hr, ?_⟩
  rw [List.mem_filterMap]
  refine ⟨0, ?_, ?_⟩
  · refine List.mem_range.mpr ?_
    have h1 := le_max_left (1 : ℤ)
      ⌊max (c.getLength - (if r % 2 = 1 then p.brickLength / 2 else 0))
        p.brickLength / p.brickLength⌋
    omega
  · have he : (((0 : ℕ) : ℚ) + 1 / 2) * p.brickLength = p.brickLength / 2 := by
      push_cast
      ring
    have hd : (if r % 2 = 1 then p.brickLength / 2 else 0) +
        (((0 : ℕ) : ℚ) + 1 / 2) * p.brickLength ≤ c.getLength := by
      rw [he]
      exact hfit
    simp only []
    rw [if_neg (not_lt.mpr hd)]

/-- Witness for the amended C3 at a concrete input: row 1 of a two-row run
on a curve of length 10 is nonempty. -/
theorem claim_C3_witness :
    0 < (lineCurve 10).getLength ∧ 0 < pC1.brickLength ∧ 1 < pC1.rows ∧
    ∃ q ∈ computePlacements (lineCurve 10) pC1, q.row = 1 :=
  ⟨by decide!, by decide!, by decide!,
    claim_C3_row_presence (lineCurve 10) pC1 1 (by decide!) (by decide!)
      (by decide!) (by decide!)⟩

/-- C5 (counterexample): with falloff strength 1, rows 11, brick length 2
on a straight curve of length 8 and the anchor at the curve start, the kept
fraction of row 4 is 2/4 while the kept fraction of row 5 is 2/3: the
fraction increases from row 4 to row 5, refuting monotonicity in the row
index (rounding interacts with the different sizes of staggered rows). -/
theorem claim_C5_counterexample :
    0 < pC5.falloff ∧ 2 ≤ pC5.rows ∧
    ((countRow (applyFalloff psC5 pC5 (lineCurve 8) (some ⟨0, 0, 0⟩)) 4 : ℚ) /
        (countRow psC5 4 : ℚ) <
      (countRow (applyFalloff psC5 pC5 (lineCurve 8) (some ⟨0, 0, 0⟩)) 5 : ℚ) /
        (countRow psC5 5 : ℚ)) := by
  decide!

/-- C5 (amended): the kept fraction of applyFalloff is non-increasing in
the falloff strength for a fixed row, and non-increasing in the row index
at a fixed strength among rows with equal pre-falloff brick counts (for
rows of unequal size, rounding can make the fraction increase, as the
counterexample shows). -/
theorem claim_C5_taper_monotone (ps : List BrickPlacement)
    (p : BrickParameters) (c : Curve) (a : Vec3) (s1 s2 : ℚ) (r1 r2 : ℕ)
    (hs1 : 0 < s1) (hs12 : s1 ≤ s2) (hrows : 2 ≤ p.rows) (hr12 : r1 ≤ r2)
    (hcnt : countRow ps r1 = countRow ps r2) :
    ((countRow (applyFalloff ps { p with falloff := s2 } c (some a)) r1 : ℚ) /
        (countRow ps r1 : ℚ) ≤
      (countRow (applyFalloff ps { p with falloff := s1 } c (some a)) r1 : ℚ) /
        (countRow ps r1 : ℚ)) ∧
    ((countRow (applyFalloff ps { p with falloff := s1 } c (some a)) r2 : ℚ) /
        (countRow ps r2 : ℚ) ≤
      (countRow (applyFalloff ps { p with falloff := s1 } c (some a)) r1 : ℚ) /
        (countRow ps r1 : ℚ)) := by
  have hs2 : 0 < s2 := lt_of_lt_of_le hs1 hs12
  have hf1 : ¬ max 0 (min s1 1) ≤ 0 :=
    not_le.mpr (lt_max_of_lt_right (lt_min hs1 one_pos))
  have hf2 : ¬ max 0 (min s2 1) ≤ 0 :=
    not_le.mpr (lt_max_of_lt_right (lt_min hs2 one_pos))
  have hrows' : ¬ p.rows ≤ 1 := by omega
  by_cases hL : c.getLength ≤ 0
  · rw [applyFalloff_of_length_nonpos ps { p with falloff := s1 } c _ hL,
      applyFalloff_of_length_nonpos ps { p with falloff := s2 } c _ hL]
    refine ⟨le_rfl, ?_⟩
    rw [hcnt]
  · have e1 := countRow_applyFalloff_active ps { p with falloff := s1 } c a
      hf1 hrows' hL r1
    have e2 := countRow_applyFalloff_active ps { p with falloff := s2 } c a
      hf2 hrows' hL r1
    have e3 := countRow_applyFalloff_active ps { p with falloff := s1 } c a
      hf1 hrows' hL r2
    constructor
    · rw [e1, e2]
      rcases Nat.eq_zero_or_pos (countRow ps r1) with h | h
      · simp [h, keepCount_zero]
      · have hc : (0 : ℚ) < (countRow ps r1 : ℚ) := by exact_mod_cast h
        refine (div_le_div_right hc).mpr ?_
        have hmm : max 0 (min s1 1) ≤ max 0 (min s2 1) :=
          max_le_max le_rfl (min_le_min hs12 le_rfl)
        exact_mod_cast keepCount_anti_falloff hmm p.rows r1 _
    · rw [e1, e3, ← hcnt]
      rcases Nat.eq_zero_or_pos (countRow ps r1) with h | h
      · simp [h, keepCount_zero]
      · have hc : (0 : ℚ) < (countRow ps r1 : ℚ) := by exact_mod_cast h
        refine (div_le_div_right hc).mpr ?_
        exact_mod_cast keepCount_anti_row (le_max_left _ _) p.rows hr12 _

/-- Witness for the amended C5 at a concrete input: rows 2 and 4 of the
counterexample configuration have equal pre-falloff counts, and both
monotonicity conclusions hold there for strengths 1/2 and 1. -/
theorem claim_C5_witness :
    (0 : ℚ) < 1 / 2 ∧ (1 / 2 : ℚ) ≤ 1 ∧ 2 ≤ pC5.rows ∧ (2 : ℕ) ≤ 4 ∧
    countRow psC5 2 = countRow psC5 4 ∧
    (((countRow (applyFalloff psC5 { pC5 with falloff := 1 } (lineCurve 8)
          (some ⟨0, 0, 0⟩)) 2 : ℚ) / (countRow psC5 2 : ℚ) ≤
        (countRow (applyFalloff psC5 { pC5 with falloff := 1 / 2 } (lineCurve 8)
          (some ⟨0, 0, 0⟩)) 2 : ℚ) / (countRow psC5 2 : ℚ)) ∧
      ((countRow (applyFalloff psC5 { pC5 with falloff := 1 / 2 } (lineCurve 8)
          (some ⟨0, 0, 0⟩)) 4 : ℚ) / (countRow psC5 4 : ℚ) ≤
        (countRow (applyFalloff psC5 { pC5 with falloff := 1 / 2 } (lineCurve 8)
          (some ⟨0, 0, 0⟩)) 2 : ℚ) / (countRow psC5 2 : ℚ))) :=
  ⟨by decide!, by decide!, by decide!, by decide!, by decide!,
    claim_C5_taper_monotone psC5 pC5 (lineCurve 8) ⟨0, 0, 0⟩ (1 / 2) 1 2 4
      (by decide!) (by decide!) (by decide!) (by decide!) (by decide!)⟩

/-- C7: applyFalloff leaves row 0 untouched for every placement set, every
falloff strength in [0, 1] and every anchor: the row 0 placements of the
output are a permutation of the row 0 placements of the input (the source
sorts each row by distance before re-emitting it), and in particular the
row 0 count is unchanged. -/
theorem claim_C7_row0_invariant (ps : List BrickPlacement)
    (p : BrickParameters) (c : Curve) (oa : Option Vec3)
    (h0 : 0 ≤ p.falloff) (h1 : p.falloff ≤ 1) :
    ((applyFalloff ps p c oa).filter fun q => q.row == 0).Perm
      (ps.filter fun q => q.row == 0) ∧
    countRow (applyFalloff ps p c oa) 0 = countRow ps 0 := by
  have main : ((applyFalloff ps p c oa).filter fun q => q.row == 0).Perm
      (ps.filter fun q => q.row == 0) := by
    cases oa with
    | none => rw [applyFalloff_none]
    | some a =>
        by_cases hf : max 0 (min p.falloff 1) ≤ 0
        · rw [applyFalloff_of_falloff_nonpos _ _ _ _ hf]
        · by_cases hrows : p.rows ≤ 1
          · rw [applyFalloff_of_rows_le_one _ _ _ _ hrows]
          · by_cases hL : c.getLength ≤ 0
            · rw [applyFalloff_of_length_nonpos _ _ _ _ hL]
            · rw [applyFalloff_active ps p c a hf hrows hL,
                filter_flatMap_keys _ _
                  (processRow_sorted_filter_rows ps _ _ _)
                  (rowKeys_nodup ps) 0]
              by_cases hmem : 0 ∈ rowKeys ps
              · rw [if_pos hmem]
                have hpr : processRow (max 0 (min p.falloff 1)) p.rows
                    (bestAnchorU c a.x a.z * c.getLength) 0
                    (sortByDistance (ps.filter fun q => q.row == 0)) =
                    sortByDistance (ps.filter fun q => q.row == 0) := by
                  simp [processRow]
                rw [hpr]
                exact sortByDistance_perm _
              · rw [if_neg hmem]
                have h0' : ps.filter (fun q => q.row == 0) = [] := by
                  refine List.filter_eq_nil_iff.mpr fun q hq hbeq => ?_
                  exact hmem (rowKeys_mem.mpr ⟨q, hq, by simpa using hbeq⟩)
                rw [h0']
  exact ⟨main, main.length_eq⟩

/-- Witness for C7 at a concrete input. -/
theorem claim_C7_witness :
    0 ≤ pC1.falloff ∧ pC1.falloff ≤ 1 ∧
    countRow (applyFalloff psC1 pC1 (lineCurve 6) (some ⟨0, 0, 0⟩)) 0 =
      countRow psC1 0 :=
  ⟨by decide!, by decide!,
    (claim_C7_row0_invariant psC1 pC1 (lineCurve 6) (some ⟨0, 0, 0⟩)
      (by decide!) (by decide!)).2⟩

/-- C8: applyFalloff preserves row non-emptiness: every row inhabited in
the input is still inhabited in the output, for every placement set,
parameter bundle, curve and optional anchor. -/
theorem claim_C8_row_survivor (ps : List BrickPlacement)
    (p : BrickParameters) (c : Curve) (oa : Option Vec3) (r : ℕ)
    (h : ∃ q ∈ ps, q.row = r) :
    ∃ q ∈ applyFalloff ps p c oa, q.row = r := by
  cases oa with
  | none => rw [applyFalloff_none]; exact h
  | some a =>
      by_cases hf : max 0 (min p.falloff 1) ≤ 0
      · rw [applyFalloff_of_falloff_nonpos _ _ _ _ hf]; exact h
      · by_cases hrows : p.rows ≤ 1
        · rw [applyFalloff_of_rows_le_one _ _ _ _ hrows]; exact h
        · by_cases hL : c.getLength ≤ 0
          · rw [applyFalloff_of_length_nonpos _ _ _ _ hL]; exact h
          · rw [applyFalloff_active ps p c a hf hrows hL]
            have hkey : r ∈ rowKeys ps := rowKeys_mem.mpr h
            have hne : sortByDistance (ps.filter fun x => x.row == r) ≠ [] := by
              obtain ⟨q, hq, hqr⟩ := h
              intro hnil
              have hmemq : q ∈ sortByDistance (ps.filter fun x => x.row == r) :=
                mem_sortByDistance.mpr
                  (List.mem_filter.mpr ⟨hq, by simp [hqr]⟩)
              rw [hnil] at hmemq
              exact absurd hmemq (List.not_mem_nil q)
            obtain ⟨q', hq'⟩ :=
              List.exists_mem_of_ne_nil _ (processRow_ne_nil hne)
            exact ⟨q', List.mem_flatMap.mpr ⟨r, hkey, hq'⟩,
              processRow_sorted_filter_rows ps _ _ _ r q' hq'⟩

/-- Witness for C8 at a concrete input: row 1 survives the strongest
falloff. -/
theorem claim_C8_witness :
    (∃ q ∈ psC1, q.row = 1) ∧
    ∃ q ∈ applyFalloff psC1 pC1 (lineCurve 6) (some ⟨0, 0, 0⟩), q.row = 1 :=
  ⟨by decide!,
    claim_C8_row_survivor psC1 pC1 (lineCurve 6) (some ⟨0, 0, 0⟩) 1 (by decide!)⟩

/-- C9 (counterexample): with dimensions 1, 1, 1/200 (all positive) and gap
0 inside the claimed range, the effective height is 1/100, which exceeds
the nominal height 1/200: the epsilon floor can push an effective dimension
above its nominal value, refuting the bound as claimed. -/
theorem claim_C9_counterexample :
    0 < pC9.brickLength ∧ 0 < pC9.brickWidth ∧ 0 < pC9.brickHeight ∧
    0 ≤ pC9.gap ∧
    pC9.gap < min pC9.brickLength (min pC9.brickWidth pC9.brickHeight) ∧
    pC9.brickHeight < (effectiveDims pC9).height := by
  decide!

/-- C9 (amended): when every nominal dimension is at least the 0.01
epsilon, each effective dimension equals
max(dimension - clamp(gap, 0, min(dims) - epsilon), epsilon) and is
strictly positive and at most its nominal dimension (for dimensions below
the epsilon the effective dimension can exceed the nominal one, as the
counterexample shows). -/
theorem claim_C9_gap_shrink (p : BrickParameters)
    (hl : 1 / 100 ≤ p.brickLength) (hw : 1 / 100 ≤ p.brickWidth)
    (hh : 1 / 100 ≤ p.brickHeight) (hg0 : 0 ≤ p.gap)
    (hg1 : p.gap < min p.brickLength (min p.brickWidth p.brickHeight)) :
    ((effectiveDims p).length =
        max (p.brickLength - max 0 (min p.gap
          (min p.brickLength (min p.brickWidth p.brickHeight) - 1 / 100)))
          (1 / 100) ∧
      (effectiveDims p).height =
        max (p.brickHeight - max 0 (min p.gap
          (min p.brickLength (min p.brickWidth p.brickHeight) - 1 / 100)))
          (1 / 100) ∧
      (effectiveDims p).width =
        max (p.brickWidth - max 0 (min p.gap
          (min p.brickLength (min p.brickWidth p.brickHeight) - 1 / 100)))
          (1 / 100)) ∧
    (0 < (effectiveDims p).length ∧ (effectiveDims p).length ≤ p.brickLength) ∧
    (0 < (effectiveDims p).height ∧ (effectiveDims p).height ≤ p.brickHeight) ∧
    (0 < (effectiveDims p).width ∧ (effectiveDims p).width ≤ p.brickWidth) := by
  have hm : 1 / 100 ≤ min p.brickLength (min p.brickWidth p.brickHeight) :=
    le_min hl (le_min hw hh)
  have hms : max 0 (min p.brickLength (min p.brickWidth p.brickHeight) - 1 / 100) =
      min p.brickLength (min p.brickWidth p.brickHeight) - 1 / 100 :=
    max_eq_right (by linarith)
  have hcg0 : 0 ≤ max 0 (min p.gap
      (min p.brickLength (min p.brickWidth p.brickHeight) - 1 / 100)) :=
    le_max_left _ _
  have heps : (0 : ℚ) < 1 / 100 := by norm_num
  refine ⟨?_, ?_, ?_, ?_⟩
  · unfold effectiveDims
    rw [hms]
    exact ⟨rfl, rfl, rfl⟩
  · unfold effectiveDims
    rw [hms]
    exact ⟨lt_of_lt_of_le heps (le_max_right _ _),
      max_le (by linarith) hl⟩
  · unfold effectiveDims
    rw [hms]
    exact ⟨lt_of_lt_of_le heps (le_max_right _ _),
      max_le (by linarith) hh⟩
  · unfold effectiveDims
    rw [hms]
    exact ⟨lt_of_lt_of_le heps (le_max_right _ _),
      max_le (by linarith) hw⟩

/-- Witness for the amended C9 at the default parameter values. -/
theorem claim_C9_witness :
    (1 / 100 : ℚ) ≤ 2 ∧ (1 / 100 : ℚ) ≤ 1 ∧ (1 / 100 : ℚ) ≤ 1 / 2 ∧
    (0 : ℚ) ≤ 1 / 20 ∧ (1 / 20 : ℚ) < min 2 (min 1 (1 / 2)) ∧
    (0 < (effectiveDims pC1).height ∧
      (effectiveDims pC1).height ≤ pC1.brickHeight) :=
  ⟨by decide!, by decide!, by decide!, by decide!, by decide!,
    (claim_C9_gap_shrink pC1 (by decide!) (by decide!) (by decide!)
      (by decide!) (by decide!)).2.2.1⟩

/-- C10: applyFalloff returns its input unchanged whenever the curve total
length is zero or negative, even with positive falloff strength, an anchor
supplied and at least two rows (a no-op guard beyond the three the spec
lists; a non-finite length is not representable over the rationals and is
covered by the same source guard). -/
theorem claim_C10_degenerate_length_noop (ps : List BrickPlacement)
    (p : BrickParameters) (c : Curve) (a : Vec3) (hf : 0 < p.falloff)
    (hr : 2 ≤ p.rows) (hL : c.getLength ≤ 0) :
    applyFalloff ps p c (some a) = ps :=
  applyFalloff_of_length_nonpos ps p c (some a) hL

/-- Witness for C10 at a concrete input: a zero-length curve with maximal
falloff, an anchor and two rows. -/
theorem claim_C10_witness :
    0 < pC1.falloff ∧ 2 ≤ pC1.rows ∧ (lineCurve 0).getLength ≤ 0 ∧
    applyFalloff psC1 pC1 (lineCurve 0) (some ⟨0, 0, 0⟩) = psC1 :=
  ⟨by decide!, by decide!, by decide!,
    claim_C10_degenerate_length_noop psC1 pC1 (lineCurve 0) ⟨0, 0, 0⟩
      (by decide!) (by decide!) (by decide!)⟩

/-- C4 (counterexample): for the collinear but unevenly spaced editor
points ptsC4, the centroid of 257 uniform arc length samples of the built
curve has first horizontal coordinate at least 1/2 world units away from
the origin (about 0.75, against a path 22.5 world units wide), far beyond
floating point tolerance: createCurve centers the control points, not the
arc length samples of the spline. -/
theorem claim_C4_counterexample :
    2 ≤ ptsC4.length ∧ (1 : ℚ) / 2 ≤ (sampleCentroid curveC4 256).1 := by
  decide!

/-- C4 (amended): what createCurve guarantees is that the centroid of the
centered, scaled control points is exactly the origin on both horizontal
axes; the curve interpolates these control points, but the centroid of
dense uniform arc length samples of the spline need not lie near the
origin, as the counterexample shows. -/
theorem claim_C4_centered_control (points : List CurvePoint) (w d : ℚ)
    (hne : points ≠ []) :
    ((createCurve points w d).map Vec3.x).sum = 0 ∧
    ((createCurve points w d).map Vec3.z).sum = 0 := by
  have hn : ((points.length : ℚ)) ≠ 0 :=
    Nat.cast_ne_zero.mpr (List.length_pos.mpr hne).ne'
  simp only [createCurve, List.map_map]
  exact ⟨centered_sum points (fun q => q.x) w hn,
    centered_sum points (fun q => q.y) d hn⟩

theorem isqrtAux_eq (n k : ℕ) (hk1 : k * k ≤ n) (hk2 : n < (k + 1) * (k + 1)) :
    ∀ fuel lo hi, lo ≤ k → k ≤ hi → hi ≤ lo + fuel →
      isqrtAux n fuel lo hi = k := by
  intro fuel
  induction fuel with
  | zero =>
      intro lo hi hlo hhi hfuel
      have : lo = k := by omega
      subst this
      rfl
  | succ fuel ih =>
      intro lo hi hlo hhi hfuel
      simp only [isqrtAux]
      by_cases hle : hi ≤ lo
      · rw [if_pos hle]
        omega
      · rw [if_neg hle]
        have hmid1 : lo < (lo + hi + 1) / 2 := by omega
        have hmid2 : (lo + hi + 1) / 2 ≤ hi := by omega
        by_cases hmid : (lo + hi + 1) / 2 * ((lo + hi + 1) / 2) ≤ n
        · rw [if_pos hmid]
          have hmk : (lo + hi + 1) / 2 ≤ k := by
            by_contra hcon
            push_neg at hcon
            have : (k + 1) * (k + 1) ≤ (lo + hi + 1) / 2 * ((lo + hi + 1) / 2) :=
              Nat.mul_le_mul hcon hcon
            omega
          exact ih _ _ hmk hhi (by omega)
        · rw [if_neg hmid]
          push_neg at hmid
          have hkm : k < (lo + hi + 1) / 2 := by
            by_contra hcon
            push_neg at hcon
            have : (lo + hi + 1) / 2 * ((lo + hi + 1) / 2) ≤ k * k :=
              Nat.mul_le_mul hcon hcon
            omega
          exact ih _ _ hlo (by omega) (by omega)

theorem isqrt_sq (k : ℕ) : isqrt (k * k) = k := by
  rcases Nat.eq_zero_or_pos k with rfl | hk
  · rfl
  · refine isqrtAux_eq (k * k) k le_rfl (by nlinarith) (k * k) 0 (k * k)
      (Nat.zero_le k) ?_ (by omega)
    exact Nat.le_mul_of_pos_left k hk

theorem ratSqrt_mul_self {r : ℚ} (h : 0 ≤ r) : ratSqrt (r * r) = r := by
  have h0 : (0 : ℚ) ≤ r * r := mul_self_nonneg r
  have hnn : (0 : ℤ) ≤ r.num := Rat.num_nonneg.mpr h
  have htoNat : (r * r).num.toNat = r.num.toNat * r.num.toNat := by
    rw [Rat.mul_self_num]
    rcases Int.eq_ofNat_of_zero_le hnn with ⟨m, hm⟩
    rw [hm]
    push_cast
    exact Int.toNat_natCast (m * m)
  have hden : (r * r).den = r.den * r.den := Rat.mul_self_den r
  have hc : ((isqrt (r * r).num.toNat : ℕ) : ℚ) / ((isqrt (r * r).den : ℕ) : ℚ) = r := by
    rw [htoNat, hden, isqrt_sq, isqrt_sq]
    have hcast : ((r.num.toNat : ℕ) : ℚ) = (r.num : ℚ) := by
      exact_mod_cast congrArg (fun z : ℤ => (z : ℚ)) (Int.toNat_of_nonneg hnn)
    rw [hcast]
    exact Rat.num_div_den r
  simp only [ratSqrt]
  rw [if_pos h0, hc, if_pos rfl]

theorem ratSqrt_of_not_square {q : ℚ} (h : ¬ ∃ r : ℚ, r * r = q) :
    ratSqrt q = 0 := by
  simp only [ratSqrt]
  split_ifs with h1 h2
  · exact absurd ⟨_, h2⟩ h
  · rfl
  · rfl

theorem ratSqrt_smul (s : ℚ) (q : ℚ) (hs : 0 ≤ s) :
    ratSqrt (s * s * q) = s * ratSqrt q := by
  by_cases hsq : ∃ r : ℚ, r * r = q
  · obtain ⟨r, hr⟩ := hsq
    have habs : |r| * |r| = q := by rw [abs_mul_abs_self]; exact hr
    have h1 : ratSqrt q = |r| := by
      rw [← habs, ratSqrt_mul_self (abs_nonneg r)]
    have h2 : s * s * q = (s * |r|) * (s * |r|) := by rw [← habs]; ring
    rw [h2, ratSqrt_mul_self (mul_nonneg hs (abs_nonneg r)), h1]
  · rcases eq_or_lt_of_le hs with hz | hs'
    · have hz' : s = 0 := hz.symm
      subst hz'
      have harg : (0 : ℚ) * 0 * q = 0 * 0 := by ring
      rw [harg, ratSqrt_mul_self le_rfl, zero_mul]
    · have hs0 : s ≠ 0 := ne_of_gt hs'
      have hnsq : ¬ ∃ u : ℚ, u * u = s * s * q := by
        rintro ⟨u, hu⟩
        refine hsq ⟨u / s, ?_⟩
        rw [div_mul_div_comm, hu]
        exact mul_div_cancel_left₀ q (mul_ne_zero hs0 hs0)
      rw [ratSqrt_of_not_square hsq, ratSqrt_of_not_square hnsq, mul_zero]

theorem getD_map_vsmul (s : ℚ) (l : List Vec3) (i : ℕ) :
    (l.map (vsmul s)).getD i ⟨0, 0, 0⟩ = vsmul s (l.getD i ⟨0, 0, 0⟩) := by
  induction l generalizing i with
  | nil => simp [vsmul]
  | cons a tl ih =>
      cases i with
      | zero => rfl
      | succ j => simpa using ih j

theorem getD_map_mul (s : ℚ) (l : List ℚ) (i : ℕ) :
    (l.map (s * ·)).getD i 0 = s * l.getD i 0 := by
  induction l generalizing i with
  | nil => simp
  | cons a tl ih =>
      cases i with
      | zero => rfl
      | succ j => simpa using ih j

theorem crComponent_smul (s x0 x1 x2 x3 w : ℚ) :
    crComponent (s * x0) (s * x1) (s * x2) (s * x3) w =
      s * crComponent x0 x1 x2 x3 w := by
  simp only [crComponent]
  ring

theorem dist3_smul (s : ℚ) (hs : 0 ≤ s) (a b : Vec3) :
    dist3 (vsmul s a) (vsmul s b) = s * dist3 a b := by
  simp only [dist3, vsmul]
  have harg : (s * a.x - s * b.x) * (s * a.x - s * b.x) +
      (s * a.y - s * b.y) * (s * a.y - s * b.y) +
      (s * a.z - s * b.z) * (s * a.z - s * b.z) =
      s * s * ((a.x - b.x) * (a.x - b.x) + (a.y - b.y) * (a.y - b.y) +
        (a.z - b.z) * (a.z - b.z)) := by ring
  rw [harg, ratSqrt_smul _ _ hs]

theorem crGetPoint_smul (s : ℚ) (pts : List Vec3) (t : ℚ) :
    crGetPoint (pts.map (vsmul s)) t = vsmul s (crGetPoint pts t) := by
  simp only [crGetPoint, List.length_map, getD_map_vsmul]
  split_ifs <;>
    · simp only [vsmul, vsub, crComponent, Vec3.mk.injEq]
      refine ⟨by ring, by ring, by ring⟩

theorem crLengths_smul (s : ℚ) (hs : 0 ≤ s) (pts : List Vec3) :
    crLengths (pts.map (vsmul s)) = (crLengths pts).map (s * ·) := by
  simp only [crLengths]
  have hinit : (([(0 : ℚ)], crGetPoint (pts.map (vsmul s)) 0, (0 : ℚ)) :
      List ℚ × Vec3 × ℚ) =
      (fun (acc : List ℚ × Vec3 × ℚ) =>
        (acc.1.map (fun x => s * x), vsmul s acc.2.1, s * acc.2.2))
        ([(0 : ℚ)], crGetPoint pts 0, (0 : ℚ)) := by
    simp [crGetPoint_smul, mul_zero]
  have hfold := List.foldl_hom
    (fun (acc : List ℚ × Vec3 × ℚ) =>
      (acc.1.map (fun x => s * x), vsmul s acc.2.1, s * acc.2.2))
    (fun (acc : List ℚ × Vec3 × ℚ) (j : ℕ) =>
      let current := crGetPoint pts (((j : ℚ) + 1) / 200)
      let sum := acc.2.2 + dist3 current acc.2.1
      (acc.1 ++ [sum], current, sum))
    (fun (acc : List ℚ × Vec3 × ℚ) (j : ℕ) =>
      let current := crGetPoint (pts.map (vsmul s)) (((j : ℚ) + 1) / 200)
      let sum := acc.2.2 + dist3 current acc.2.1
      (acc.1 ++ [sum], current, sum))
    (List.range 200)
    ([(0 : ℚ)], crGetPoint pts 0, (0 : ℚ))
    (by
      intro acc j
      simp only [crGetPoint_smul, dist3_smul s hs, List.map_append,
        List.map_cons, List.map_nil, mul_add])
  rw [hinit, hfold]

theorem crGetLength_smul (s : ℚ) (hs : 0 ≤ s) (pts : List Vec3) :
    crGetLength (pts.map (vsmul s)) = s * crGetLength pts := by
  simp only [crGetLength]
  rw [crLengths_smul s hs, getD_map_mul]

theorem createCurve_mul (points : List CurvePoint) (w d s : ℚ) :
    createCurve points (w * s) (d * s) = (createCurve points w d).map (vsmul s) := by
  simp only [createCurve, List.map_map]
  refine List.map_congr_left fun q _ => ?_
  simp only [Function.comp, vsmul, Vec3.mk.injEq]
  refine ⟨by ring, by ring, by ring⟩

theorem updateCurvePts_some (points : List CurvePoint) (t : ℚ) :
    updateCurvePts points (some t) =
      if 0 < t then
        if 0 < crGetLength (createCurve points 30 14) then
          createCurve points
            (30 * (t / crGetLength (createCurve points 30 14)))
            (14 * (t / crGetLength (createCurve points 30 14)))
        else createCurve points 30 14
      else createCurve points 30 14 := rfl

/-- C6: when a positive target length is requested and the base curve has
positive measured length, the update pipeline rebuilds the curve with both
world factors multiplied by the single ratio targetLength / baseLength, so
the rebuilt control polygon is the uniform scaling of the base one (shape
preserved) and the measured total length of the rebuilt curve equals the
target exactly in the rational model (hence within any relative
tolerance). -/
theorem claim_C6_length_rescale (points : List CurvePoint) (t : ℚ)
    (hn : 2 ≤ points.length) (ht : 0 < t)
    (hbl : 0 < crGetLength (createCurve points 30 14)) :
    updateCurvePts points (some t) =
      (createCurve points 30 14).map
        (vsmul (t / crGetLength (createCurve points 30 14))) ∧
    crGetLength (updateCurvePts points (some t)) = t := by
  have hs : 0 ≤ t / crGetLength (createCurve points 30 14) :=
    div_nonneg ht.le hbl.le
  have h1 : updateCurvePts points (some t) =
      createCurve points
        (30 * (t / crGetLength (createCurve points 30 14)))
        (14 * (t / crGetLength (createCurve points 30 14))) := by
    rw [updateCurvePts_some, if_pos ht, if_pos hbl]
  constructor
  · rw [h1, createCurve_mul]
  · rw [h1, createCurve_mul, crGetLength_smul _ hs,
      div_mul_cancel₀ _ (ne_of_gt hbl)]

/-- Witness for C6 at a concrete two-point input with target length 24. -/
theorem claim_C6_witness :
    2 ≤ ptsC6.length ∧ (0 : ℚ) < 24 ∧
    0 < crGetLength (createCurve ptsC6 30 14) ∧
    crGetLength (updateCurvePts ptsC6 (some 24)) = 24 :=
  ⟨by decide!, by decide!, by decide!,
    (claim_C6_length_rescale ptsC6 24 (by decide!) (by decide!) (by decide!)).2⟩

/-- Witness for the amended C4 at the counterexample points. -/
theorem claim_C4_witness :
    ptsC4 ≠ [] ∧
    (((createCurve ptsC4 30 14).map Vec3.x).sum = 0 ∧
      ((createCurve ptsC4 30 14).map Vec3.z).sum = 0) :=
  ⟨by decide!, claim_C4_centered_control ptsC4 30 14 (by decide!)⟩

end BrickWaller
